import Mathlib

/-!
Verification development for `station.py` (media acquisition/sanitization
station).  The Python source is shallowly embedded: strings are `List Char`,
the specific `re` patterns used by the source are embedded through a small
backtracking pattern matcher whose semantics mirrors `re.search` (leftmost
start, greedy/lazy quantifiers with backtracking) on the pattern constructs
actually occurring in the source (literals and quantified character classes),
Python floats are modelled as rationals, the filesystem is a list of existing
path strings, and process outcomes (exit codes, output streams, wall-clock
times) are explicit parameters.
-/

namespace Station

/-- Python `str.strip()` whitespace (ASCII whitespace, which is what the
tool output contains): space, tab, newline, carriage return, vertical tab,
form feed. -/
def pySpace (c : Char) : Bool :=
  c = ' ' || c = '\t' || c = '\n' || c = '\r' || c = '\x0b' || c = '\x0c'

/-- Python `str.strip()`: drop leading and trailing whitespace. -/
def pyStrip (s : List Char) : List Char :=
  ((s.dropWhile pySpace).reverse.dropWhile pySpace).reverse

/-- Prefix test `a` of `b` for char lists (decidable, used by the matcher). -/
def isPre : List Char → List Char → Bool
  | [], _ => true
  | _ :: _, [] => false
  | a :: as, b :: bs => a = b && isPre as bs

/-- Python `pat in text` substring test. -/
def subIn (pat : List Char) : List Char → Bool
  | [] => isPre pat []
  | s@(_ :: rest) => isPre pat s || subIn pat rest

/-- ASCII decimal digit (`\d` in the source's patterns: the tool output is
ASCII). -/
def isDig (c : Char) : Bool := '0' ≤ c && c ≤ '9'

/-! Part: A tiny `re` matcher

The patterns in `station.py` are built only from literals and quantified
character classes (`\s+`, `\d+`, `\.?`, `\d*`, `.*`, `.*?`, `\S+`, `.+`),
possibly anchored at the end (`$`), with capturing groups.  `RItem` is one
pattern element; a pattern is a `List RItem`.  `matchSeq` matches a pattern
at the start of a string with Python's backtracking priority (greedy
quantifiers try the longest count first, lazy ones the shortest), recording
the suffix of the string at each group marker; `rsearch` adds `re.search`'s
leftmost-start semantics. -/

inductive RItem where
  /-- a literal string -/
  | lit : List Char → RItem
  /-- a quantified character class: predicate, minimum count, optional
  maximum count, and greediness (`true` = greedy, `false` = lazy) -/
  | cls : (Char → Bool) → Nat → Option Nat → Bool → RItem
  /-- opening marker of a capturing group -/
  | gOpen : RItem
  /-- closing marker of a capturing group -/
  | gClose : RItem
  /-- end-of-string anchor `$` -/
  | eol : RItem

/-- Try repetition counts `mn + d`, `mn + d - 1`, …, `mn` in that order. -/
def tryDown (cont : Nat → Option (List (List Char) × List Char)) (mn : Nat) :
    Nat → Option (List (List Char) × List Char)
  | 0 => cont mn
  | d + 1 => (cont (mn + d + 1)).orElse fun _ => tryDown cont mn d

/-- Try repetition counts `mn`, `mn + 1`, …, `mn + d` in that order. -/
def tryUp (cont : Nat → Option (List (List Char) × List Char)) (mn : Nat) :
    Nat → Option (List (List Char) × List Char)
  | 0 => cont mn
  | d + 1 => (cont mn).orElse fun _ => tryUp cont (mn + 1) d

/-- Match a pattern at the start of `s`.  On success returns the suffixes of
`s` recorded at the group markers (in order) and the remainder after the
match. -/
def matchSeq : List RItem → List Char → Option (List (List Char) × List Char)
  | [], s => some ([], s)
  | .lit l :: its, s =>
      if isPre l s then matchSeq its (s.drop l.length) else none
  | .gOpen :: its, s => (matchSeq its s).map fun r => (s :: r.1, r.2)
  | .gClose :: its, s => (matchSeq its s).map fun r => (s :: r.1, r.2)
  | .eol :: its, s => if s.isEmpty then matchSeq its s else none
  | .cls p mn mx greedy :: its, s =>
      let avail := (s.takeWhile p).length
      let hi := match mx with
        | none => avail
        | some m => Nat.min m avail
      if hi < mn then none
      else if greedy then tryDown (fun k => matchSeq its (s.drop k)) mn (hi - mn)
      else tryUp (fun k => matchSeq its (s.drop k)) mn (hi - mn)

/-- Search as `re.search`: try each start position left to right. -/
def rsearch (items : List RItem) : List Char → Option (List (List Char) × List Char)
  | [] => matchSeq items []
  | c :: rest => (matchSeq items (c :: rest)).orElse fun _ => rsearch items rest

/-- Start index of the leftmost match (for `re.sub`). -/
def rsearchIdx (items : List RItem) : List Char → Nat → Option Nat
  | [], i => if (matchSeq items []).isSome then some i else none
  | c :: rest, i =>
    if (matchSeq items (c :: rest)).isSome then some i
    else rsearchIdx items rest (i + 1)

/-- Turn the recorded marker suffixes into the captured group strings. -/
def groupsOf : List (List Char) → List (List Char)
  | o :: c :: rest => o.take (o.length - c.length) :: groupsOf rest
  | _ => []

/-- The captured groups of the leftmost match, or `none` when there is no
match. -/
def searchGroups (items : List RItem) (s : List Char) : Option (List (List Char)) :=
  (rsearch items s).map fun r => groupsOf r.1

/-- First captured group of the leftmost match. -/
def group1 (items : List RItem) (s : List Char) : Option (List Char) :=
  (searchGroups items s).bind fun gs => gs.head?

/-! Part: Numbers as text -/

/-- Value of a digit string (`int(...)` on the all-digit strings produced by
the source's `\d+` groups). -/
def parseNat (s : List Char) : Nat :=
  s.foldl (fun a c => a * 10 + (c.toNat - 48)) 0

/-- The character for decimal digit `d`. -/
def digitCh (d : Nat) : Char := Char.ofNat (48 + d)

/-- Decimal rendering with explicit fuel: the recursion divides by ten, so
`n + 1` units of fuel always suffice. -/
def decReprAux : Nat → Nat → List Char
  | 0, _ => []
  | fuel + 1, n =>
    if n < 10 then [digitCh n]
    else decReprAux fuel (n / 10) ++ [digitCh (n % 10)]

/-- Decimal rendering of a natural number, as Python's `f"{n}"` renders it. -/
def decRepr (n : Nat) : List Char := decReprAux (n + 1) n

/-- Python `f"{n:02d}"`: zero-pad to two digits. -/
def pad2 (n : Nat) : List Char :=
  if n < 10 then '0' :: decRepr n else decRepr n

/-- Value of a group matching `\d+\.?\d*` as Python `float(...)` reads it
(e.g. `"42.5"`, `"42."`, `"42"`), as an exact rational. -/
def pyFloatGroup (s : List Char) : ℚ :=
  let ip := s.takeWhile (fun c => c ≠ '.')
  let fp := (s.drop ip.length).drop 1
  (parseNat ip : ℚ) + (parseNat fp : ℚ) / 10 ^ fp.length

/-! Part: `pathlib.Path` name and stem -/

/-- Python `Path(p).name`: the component after the last `/` (the announced paths
never end in a separator, so pathlib's trailing-separator normalisation
does not arise). -/
def pyName (p : List Char) : List Char :=
  (p.reverse.takeWhile (fun c => c ≠ '/')).reverse

/-- Index of the last occurrence of `c` (`str.rfind`). -/
def lastIdxOf (c : Char) (s : List Char) : Option Nat :=
  match s.reverse.findIdx? (fun x => x = c) with
  | some j => some (s.length - 1 - j)
  | none => none

/-- Python `Path(p).stem`: the name with its final suffix removed; pathlib keeps
the name whole when the last dot is at position 0 or is the final
character. -/
def pyStem (p : List Char) : List Char :=
  let n := pyName p
  match lastIdxOf '.' n with
  | some i => if 0 < i ∧ i < n.length - 1 then n.take i else n
  | none => n

/-! Part: The source's regular expressions (`station.py` lines 80-83, 99-100,
112, 139-140), element by element -/

/-- Class `.` in the source's patterns: any character but a newline. -/
def reDot (c : Char) : Bool := c ≠ '\n'

/-- Class `\S`: any non-whitespace character. -/
def nonSpace (c : Char) : Bool := !pySpace c

/-- Pattern `re.compile(r"\[download\]\s+(\d+\.?\d*)%.*at\s+(\S+)\s+ETA\s+(\S+)")` -/
def stats_items : List RItem :=
  [.lit "[download]".data, .cls pySpace 1 none true,
   .gOpen, .cls isDig 1 none true, .cls (fun c => c = '.') 0 (some 1) true,
   .cls isDig 0 none true, .gClose,
   .lit "%".data, .cls reDot 0 none true,
   .lit "at".data, .cls pySpace 1 none true,
   .gOpen, .cls nonSpace 1 none true, .gClose,
   .cls pySpace 1 none true, .lit "ETA".data, .cls pySpace 1 none true,
   .gOpen, .cls nonSpace 1 none true, .gClose]

/-- Pattern `re.compile(r"\[download\] Destination: (.+)")` -/
def f_pattern_items : List RItem :=
  [.lit "[download] Destination: ".data, .gOpen, .cls reDot 1 none true, .gClose]

/-- Pattern `re.compile(r"\[Merger\] Merging formats into \"(.+)\"")` -/
def f_merge_items : List RItem :=
  [.lit "[Merger] Merging formats into \"".data,
   .gOpen, .cls reDot 1 none true, .gClose, .lit "\"".data]

/-- Pattern `re.compile(r"\[download\] (.+) has already been downloaded")` -/
def f_exist_items : List RItem :=
  [.lit "[download] ".data, .gOpen, .cls reDot 1 none true, .gClose,
   .lit " has already been downloaded".data]

/-- Pattern `r"\.f\d+$"` (format-id check on the stem). -/
def fid_items : List RItem :=
  [.lit ".f".data, .cls isDig 1 none true, .eol]

/-- Pattern `r"\s*\[.*?\]$"` (trailing bracketed suffix, non-greedy inner part). -/
def bracket_items : List RItem :=
  [.cls pySpace 0 none true, .lit "[".data, .cls reDot 0 none false,
   .lit "]".data, .eol]

/-- Pattern `r"(\d+\.?\d*)%"` (bare-percentage fallback). -/
def pct_items : List RItem :=
  [.gOpen, .cls isDig 1 none true, .cls (fun c => c = '.') 0 (some 1) true,
   .cls isDig 0 none true, .gClose, .lit "%".data]

/-- Pattern `re.compile(r"time=(\d+:\d+:\d+\.\d+)")` -/
def time_items : List RItem :=
  [.lit "time=".data, .gOpen, .cls isDig 1 none true, .lit ":".data,
   .cls isDig 1 none true, .lit ":".data, .cls isDig 1 none true,
   .lit ".".data, .cls isDig 1 none true, .gClose]

/-- Pattern `re.compile(r"speed=\s*(\S+)")` -/
def speed_items : List RItem :=
  [.lit "speed=".data, .cls pySpace 0 none true,
   .gOpen, .cls nonSpace 1 none true, .gClose]

/-! Part: Progress events (the `progress_callback(p, s, d)` calls) -/

/-- One progress-callback invocation: percent (`None` allowed), kind tag,
detail text. -/
structure Event where
  pct : Option ℚ
  kind : List Char
  detail : List Char
  deriving DecidableEq

/-! Part: Acquisition-stage line grammar (`Downloader.download`, lines 85-113) -/

/-- Lines 90-93: `detected_name`, each matching pattern overwriting the
previous one (destination, then merge, then already-downloaded). -/
def detected_name (text : List Char) : Option (List Char) :=
  let d1 := match group1 f_pattern_items text with
    | some g => some g
    | none => none
  let d2 := match group1 f_merge_items text with
    | some g => some g
    | none => d1
  match group1 f_exist_items text with
  | some g => some g
  | none => d2

/-- Line 95 `if detected_name:` check — Python truthiness filters out an empty
string. -/
def announced (text : List Char) : Option (List Char) :=
  match detected_name text with
  | some g => if g.isEmpty then none else some g
  | none => none

/-- Lines 98-100: `Path(name).stem`, a second `.stem` when the result still
ends in `.f<digits>`, then `re.sub(r"\s*\[.*?\]$", "", ...)`. -/
def titleClean (detected : List Char) : List Char :=
  let n1 := pyStem detected
  let n2 := if (rsearch fid_items n1).isSome then pyStem n1 else n1
  match rsearchIdx bracket_items n2 0 with
  | some i => n2.take i
  | none => n2

/-- Progress events produced for one stripped acquisition output line
(lines 90-113, in the source's order: title, sleeping marker, merger
marker, stats match or bare-percentage fallback).  The `try/except` around
the title callback never fires in this model: every operation inside it is
total. -/
def downloadLineEvents (text : List Char) : List Event :=
  let tE : List Event := match announced text with
    | some g => [⟨none, "title".data, titleClean g⟩]
    | none => []
  let slE : List Event :=
    if subIn "Sleeping".data text then [⟨none, "download".data, "💤 Wait...".data⟩]
    else []
  let mgE : List Event :=
    if subIn "[Merger]".data text then [⟨none, "download".data, "🧩 Merging...".data⟩]
    else []
  let stE : List Event := match searchGroups stats_items text with
    | some (g1 :: g2 :: g3 :: _) =>
        [⟨some (pyFloatGroup g1), "download".data,
          g2 ++ " | ETA ".data ++ g3⟩]
    | _ =>
        if subIn "[download]".data text && subIn "%".data text then
          match group1 pct_items text with
          | some g => [⟨some (pyFloatGroup g), "download".data, []⟩]
          | none => []
        else []
  tE ++ slE ++ mgE ++ stE

/-! Part: Stream reassembly

The acquisition stage reads lines with `process.stdout.readline()`
(lines 85-88): a logical line ends at a `\n`; at end of stream the
remaining partial line, if non-empty, is still returned.  The
sanitization stage (lines 145-156) keeps an explicit byte buffer and cuts
it at the earliest `\r` **or** `\n`; a trailing unterminated fragment is
never processed. -/

/-- Splitting in `readline()` style: each line keeps its terminating `\n`;
a non-empty unterminated tail is returned as a final line. -/
def dlRawLines : List Char → List (List Char)
  | [] => []
  | c :: rest =>
    if c = '\n' then [c] :: dlRawLines rest
    else
      match dlRawLines rest with
      | [] => [[c]]
      | l :: ls => (c :: l) :: ls

/-- Acquisition text lines: `line.decode(...).strip()` (line 88). -/
def dlTextLines (stream : List Char) : List (List Char) :=
  (dlRawLines stream).map pyStrip

/-- Whether `c` terminates a logical line for the sanitization buffer
(line 151-153: the buffer is cut at `\r` or `\n`). -/
def isTerm (c : Char) : Bool := c = '\r' || c = '\n'

/-- Sanitization-stage line reassembly: split at each `\r` or `\n`
(the terminator is consumed), discarding the unterminated tail. -/
def sanLines : List Char → List (List Char)
  | [] => []
  | c :: rest =>
    if isTerm c then [] :: sanLines rest
    else
      match sanLines rest with
      | [] => []
      | l :: ls => (c :: l) :: ls

/-! Part: Acquisition-stage result (lines 79, 95-96, 115-116) -/

/-- Variable `final_filename` after the read loop: the most recent announcement. -/
def downloadFinal (stream : List Char) : Option (List Char) :=
  (dlTextLines stream).foldl
    (fun acc t => match announced t with
      | some g => some g
      | none => acc)
    none

/-- All progress events of one acquisition run. -/
def downloadEvents (stream : List Char) : List Event :=
  ((dlTextLines stream).map downloadLineEvents).flatten

/-- Line 116: `return Path(final_filename) if (process.returncode == 0 and
final_filename) else None`. -/
def downloadReturn (stream : List Char) (exitCode : Int) : Option (List Char) :=
  match downloadFinal stream with
  | some f => if exitCode = 0 then some f else none
  | none => none

/-! Part: Sanitization-stage line grammar (`Downloader.sanitize`, lines 156-176) -/

/-- Python `str.split(sep)` for a single-character separator. -/
def splitCh (sep : Char) : List Char → List (List Char)
  | [] => [[]]
  | x :: rest =>
    if x = sep then [] :: splitCh sep rest
    else
      match splitCh sep rest with
      | [] => [[x]]
      | l :: ls => (x :: l) :: ls

/-- Lines 163-164: `h, m, s = cur_time_str.split(':')` and
`curr = int(h)*3600 + int(m)*60 + int(s)`.  The time group always has the
three-field shape, so the unpacking never fails. -/
def hmsSecs (curStr : List Char) : Nat :=
  match splitCh ':' curStr with
  | [h, m, s] => parseNat h * 3600 + parseNat m * 60 + parseNat s
  | _ => 0

/-- Progress events for one sanitization line (lines 158-176).  `duration`
is the probe result (`None` on failure) and `elapsed` the wall-clock
seconds since the stage started, both explicit inputs here.  Python's
`if t_match and duration:` treats both `None` and `0.0` as falsy. -/
def sanLineEvents (duration : Option ℚ) (elapsed : ℚ) (text : List Char) :
    List Event :=
  match group1 time_items text with
  | none => []
  | some g =>
    match duration with
    | none => []
    | some d =>
      if d = 0 then []
      else
        let curStr := g.takeWhile (fun c => c ≠ '.')
        let speedStr := match group1 speed_items text with
          | some sg => sg
          | none => "?x".data
        let curr : ℚ := (hmsSecs curStr : ℚ)
        let pct := min (curr / d * 100) (999 / 10 : ℚ)
        let etaStr :=
          if 0 < elapsed ∧ 0 < pct then
            let totalEstimated := elapsed * (100 / pct)
            let remaining := totalEstimated - elapsed
            let n := (Rat.floor remaining).toNat
            pad2 (n / 60) ++ ":".data ++ pad2 (n % 60)
          else "--:--".data
        [⟨some pct, "sanitize".data,
          curStr ++ " | ".data ++ speedStr ++ " | ETA ".data ++ etaStr⟩]

/-- All progress events of one sanitization run: the stream is cut into
lines, each stripped (line 156), with `elapsedAt i` the wall-clock reading
when the `i`-th line is handled. -/
def sanEvents (duration : Option ℚ) (elapsedAt : Nat → ℚ)
    (stream : List Char) : List Event :=
  ((sanLines stream).enum.map
    (fun p => sanLineEvents duration (elapsedAt p.1) (pyStrip p.2))).flatten

/-- Line 179: `return output_path if process.returncode == 0 else None`. -/
def sanReturn (outputPath : List Char) (exitCode : Int) : Option (List Char) :=
  if exitCode = 0 then some outputPath else none

/-! Part: Duration probe (`Downloader.get_duration`, lines 181-187) -/

/-- Python `float(str)` on a stripped decimal string: optional sign,
`digits[.digits]` or `.digits`, optional `e`/`E` exponent.  (The special
forms `inf`/`nan` never occur in `ffprobe` duration output and are not
modelled.)  Returns `none` when the text does not parse. -/
def pyFloat? (s0 : List Char) : Option ℚ :=
  let s := pyStrip s0
  let sgnVal : ℚ × List Char :=
    match s with
    | '-' :: r => (-1, r)
    | '+' :: r => (1, r)
    | _ => (1, s)
  let sgn := sgnVal.1
  let s1 := sgnVal.2
  let ip := s1.takeWhile isDig
  let r1 := s1.drop ip.length
  let mantissaRest : Option (ℚ × List Char) :=
    match r1 with
    | '.' :: r2 =>
      let fp := r2.takeWhile isDig
      if ip.isEmpty && fp.isEmpty then none
      else some ((parseNat ip : ℚ) + (parseNat fp : ℚ) / 10 ^ fp.length,
                 r2.drop fp.length)
    | _ => if ip.isEmpty then none else some ((parseNat ip : ℚ), r1)
  mantissaRest.bind fun mr =>
    match mr.2 with
    | [] => some (sgn * mr.1)
    | e :: r3 =>
      if e = 'e' || e = 'E' then
        let esgnRest : Bool × List Char :=
          match r3 with
          | '-' :: r4 => (true, r4)
          | '+' :: r4 => (false, r4)
          | _ => (false, r3)
        let ds := esgnRest.2
        if ds.isEmpty || !(ds.drop (ds.takeWhile isDig).length).isEmpty then none
        else if esgnRest.1 then some (sgn * mr.1 / 10 ^ parseNat ds)
        else some (sgn * mr.1 * 10 ^ parseNat ds)
      else none

/-- Probe `get_duration`: `float(out.decode().strip())`, with any process or
parse error caught and turned into `None` (lines 183-187).  `probeOut` is
the probe's standard output, `none` when the process itself failed. -/
def get_duration (probeOut : Option (List Char)) : Option ℚ :=
  probeOut.bind pyFloat?

/-! Part: Naming resolver (`Downloader.sanitize`, lines 119-132) -/

/-- The filesystem-unsafe characters of line 121: `< > : " / \ | ? *`. -/
def unsafeChars : List Char :=
  ['<', '>', ':', '"', '/', '\\', '|', '?', '*']

/-- Line 121: `re.sub(r'[<>:"/\\|?*]', '_', stem)` acts independently on
each character. -/
def replUnsafe (c : Char) : Char :=
  if c ∈ unsafeChars then '_' else c

/-- Lines 121-123: replace the unsafe characters with `_`, then keep only
printable characters.  `printable` stands for Python's `str.isprintable`,
kept abstract so the statements cover every printability classification. -/
def safe_stem (printable : Char → Bool) (stem : List Char) : List Char :=
  (stem.map replUnsafe).filter printable

/-- The `k`-th candidate output name (relative to `SAFE_DIR`): line 125 for
`k = 0`, line 131 with `counter = k` for `k ≥ 1`. -/
def candidate (stem : List Char) (k : Nat) : List Char :=
  if k = 0 then stem ++ "_clean.mp4".data
  else stem ++ "_clean_".data ++ decRepr k ++ ".mp4".data

/-- The collision-avoidance loop of lines 128-132, with explicit fuel: while
the current candidate exists in `fs`, move to the next counter.  `fs` is the
list of paths existing in the output directory. -/
def resolveLoop (fs : List (List Char)) (stem : List Char) :
    Nat → Nat → List Char
  | 0, k => candidate stem k
  | fuel + 1, k =>
    if candidate stem k ∈ fs then resolveLoop fs stem fuel (k + 1)
    else candidate stem k

/-- The resolved output name: run the loop with enough fuel to outnumber the
existing files (the loop in the source is unbounded; `fs.length + 1`
attempts always suffice because the candidates are pairwise distinct). -/
def resolveName (fs : List (List Char)) (stem : List Char) : List Char :=
  resolveLoop fs stem (fs.length + 1) 0

/-! Part: Pipeline composition (`Downloader.run_pipeline`, lines 29-70)

The two stage results, and whether `os.remove` succeeds, are explicit
inputs; the function returns the pipeline's return value together with
whether the raw file was actually removed.  The statistics block
(lines 45-62) only logs and swallows its own errors, so it does not affect
either output. -/

/-- Outcome of one pipeline run. -/
structure PipeOut where
  result : Option (List Char)
  rawRemoved : Bool
  deriving DecidableEq

/-- Pipeline `run_pipeline` after permit acquisition: fail when the download stage
returns `None` (lines 34-36); otherwise run sanitization; on its success
delete the raw file best-effort (`try: os.remove(raw_file) except: pass`,
lines 65-66) and return the clean file (line 67); on its failure return
`None` with the raw file untouched (lines 68-70). -/
def run_pipeline (dlResult : Option (List Char))
    (sanResult : Option (List Char)) (removeOk : Bool) : PipeOut :=
  match dlResult with
  | none => ⟨none, false⟩
  | some _ =>
    match sanResult with
    | some clean => ⟨some clean, removeOk⟩
    | none => ⟨none, false⟩

/-! Part: Task scheduler (lines 19-21, 29-30, 249-272, 298-350)

`task_semaphore = asyncio.Semaphore(MAX_CONCURRENT_TASKS)` with
`MAX_CONCURRENT_TASKS = 3`; every pipeline runs its whole body inside
`async with task_semaphore:`.  The interleaving of the submitted pipelines
is modelled as a labelled transition system over the jobs' stages and the
semaphore's free-permit count: a job enters `acquiring` only by taking a
permit, the permit is kept through `sanitizing`, and every path to a
terminal stage gives it back (the `async with` block is exited whether the
body returns a path or `None`). -/

/-- MAX_CONCURRENT_TASKS (line 20). -/
def MAX_CONCURRENT_TASKS : Nat := 3

/-- The stages of a job (spec §3). -/
inductive Stage where
  | queued | acquiring | sanitizing | done | failed
  deriving DecidableEq

/-- A job is holding a permit exactly while it is between the semaphore
acquisition (line 30) and the end of `run_pipeline`. -/
def Stage.active : Stage → Bool
  | .acquiring => true
  | .sanitizing => true
  | _ => false

/-- Scheduler state: the stage of each submitted job and the number of free
permits of `task_semaphore`. -/
structure Sched where
  jobs : List Stage
  permits : Nat

/-- Initial state: no jobs, all `MAX_CONCURRENT_TASKS` permits free. -/
def Sched.init : Sched := ⟨[], MAX_CONCURRENT_TASKS⟩

/-- One interleaving step of the system. -/
inductive SchedStep : Sched → Sched → Prop where
  /-- Handler `on_input_submitted` schedules a new pipeline (lines 249-272). -/
  | submit (js : List Stage) (p : Nat) :
      SchedStep ⟨js, p⟩ ⟨js ++ [.queued], p⟩
  /-- Line 30 `async with task_semaphore:` — a queued pipeline proceeds
  only by taking a free permit, before any external-process work. -/
  | acquire (js : List Stage) (p : Nat) (i : Nat)
      (hj : js.get? i = some .queued) (hp : 0 < p + 1) :
      SchedStep ⟨js, p + 1⟩ ⟨js.set i .acquiring, p⟩
  /-- Lines 34-36: the download stage failed; `run_pipeline` returns and
  the `async with` block releases the permit. -/
  | acquireFail (js : List Stage) (p : Nat) (i : Nat)
      (hj : js.get? i = some .acquiring) :
      SchedStep ⟨js, p⟩ ⟨js.set i .failed, p + 1⟩
  /-- Lines 38-42: the download stage succeeded; the pipeline moves on to
  sanitization still holding its permit. -/
  | acquireOk (js : List Stage) (p : Nat) (i : Nat)
      (hj : js.get? i = some .acquiring) :
      SchedStep ⟨js, p⟩ ⟨js.set i .sanitizing, p⟩
  /-- Lines 44-67: sanitization succeeded; `run_pipeline` returns the clean
  file and the permit is released. -/
  | sanitizeOk (js : List Stage) (p : Nat) (i : Nat)
      (hj : js.get? i = some .sanitizing) :
      SchedStep ⟨js, p⟩ ⟨js.set i .done, p + 1⟩
  /-- Lines 68-70: sanitization failed; `run_pipeline` returns `None` and
  the permit is released. -/
  | sanitizeFail (js : List Stage) (p : Nat) (i : Nat)
      (hj : js.get? i = some .sanitizing) :
      SchedStep ⟨js, p⟩ ⟨js.set i .failed, p + 1⟩

/-- States reachable from the initial state. -/
def SchedReachable (s : Sched) : Prop :=
  Relation.ReflTransGen SchedStep Sched.init s

/-- Number of jobs currently in `acquiring` or `sanitizing`. -/
def activeCount (js : List Stage) : Nat :=
  (js.filter Stage.active).length

/-- Replace each carriage return by a newline (used to compare the two
line-terminator conventions). -/
def crToNl (c : Char) : Char :=
  if c = '\r' then '\n' else c

/-- The scheduler-state invariant: free permits plus permit-holding jobs
always account for all `MAX_CONCURRENT_TASKS` permits. -/
def SchedInv (s : Sched) : Prop :=
  s.permits + activeCount s.jobs = MAX_CONCURRENT_TASKS

/-! Part: theorems -/

theorem findSome?_append {α β : Type} (f : α → Option β) (l₁ l₂ : List α) :
    (l₁ ++ l₂).findSome? f
    = match l₁.findSome? f with
      | some b => some b
      | none => l₂.findSome? f := by
  induction l₁ with
  | nil => rfl
  | cons a l ih =>
    simp only [List.cons_append, List.findSome?_cons]
    cases f a <;> simp [ih]

theorem foldl_announced_eq (ts : List (List Char)) (acc : Option (List Char)) :
    ts.foldl (fun acc t => match announced t with
      | some g => some g
      | none => acc) acc
    = match ts.reverse.findSome? announced with
      | some g => some g
      | none => acc := by
  induction ts generalizing acc with
  | nil => rfl
  | cons t ts ih =>
    simp only [List.foldl_cons, List.reverse_cons]
    rw [ih, findSome?_append]
    cases h : ts.reverse.findSome? announced
    · simp only [List.findSome?_cons, List.findSome?_nil]
      cases announced t <;> rfl
    · rfl

/-- C2: the acquisition stage returns a path iff the external process
exited with code zero and some destination-filename announcement was
observed; on success the path is the one last announced; in every other
case it returns `None` and the pipeline fails the job. -/
theorem c2_download_success_iff (stream : List Char) (exitCode : Int) :
    ((downloadReturn stream exitCode).isSome
      ↔ exitCode = 0 ∧ downloadFinal stream ≠ none)
    ∧ (exitCode = 0 → downloadReturn stream exitCode = downloadFinal stream)
    ∧ downloadFinal stream = (dlTextLines stream).reverse.findSome? announced
    ∧ (∀ san removeOk, run_pipeline none san removeOk = ⟨none, false⟩) := by
  refine ⟨?_, ?_, ?_, fun san removeOk => rfl⟩
  · unfold downloadReturn
    cases h : downloadFinal stream <;> by_cases he : exitCode = 0 <;> simp [h, he]
  · intro he
    unfold downloadReturn
    cases h : downloadFinal stream <;> simp [he]
  · unfold downloadFinal
    rw [foldl_announced_eq]
    cases (dlTextLines stream).reverse.findSome? announced <;> rfl

theorem c2_download_success_iff_witness :
    downloadReturn "[download] Destination: /app/downloads/f.mp4\n".data 0
      = downloadFinal "[download] Destination: /app/downloads/f.mp4\n".data
    ∧ downloadFinal "[download] Destination: /app/downloads/f.mp4\n".data
      = some "/app/downloads/f.mp4".data :=
  ⟨(c2_download_success_iff _ 0).2.1 rfl, by decide⟩

/-- C3: after a successful acquisition, the raw file is removed exactly
when sanitization succeeded (exit code zero) and the best-effort
`os.remove` itself succeeded; a failed removal is swallowed and the job
still returns the clean file (Done); on sanitization failure the raw file
is untouched and the job fails. -/
theorem c3_raw_removed_iff (raw outPath : List Char) (exitCode : Int)
    (removeOk : Bool) :
    ((run_pipeline (some raw) (sanReturn outPath exitCode) removeOk).rawRemoved
        = true
      ↔ exitCode = 0 ∧ removeOk = true)
    ∧ (exitCode = 0 →
        (run_pipeline (some raw) (sanReturn outPath exitCode) removeOk).result
          = some outPath)
    ∧ (exitCode ≠ 0 →
        run_pipeline (some raw) (sanReturn outPath exitCode) removeOk
          = ⟨none, false⟩) := by
  unfold run_pipeline sanReturn
  by_cases he : exitCode = 0 <;> cases removeOk <;> simp [he]

theorem c3_raw_removed_iff_witness :
    (run_pipeline (some "raw.mp4".data) (sanReturn "clean.mp4".data 0) false).result
      = some "clean.mp4".data
    ∧ run_pipeline (some "raw.mp4".data) (sanReturn "clean.mp4".data 1) true
      = ⟨none, false⟩ :=
  ⟨(c3_raw_removed_iff _ _ 0 false).2.1 rfl,
   (c3_raw_removed_iff _ _ 1 true).2.2 (by decide)⟩

theorem filter_length_set (js : List Stage) (i : Nat) (a b : Stage)
    (h : js.get? i = some a) :
    (List.filter Stage.active (js.set i b)).length
      + (if Stage.active a then 1 else 0)
    = (js.filter Stage.active).length + (if Stage.active b then 1 else 0) := by
  induction js generalizing i with
  | nil => cases h
  | cons hd tl ih =>
    cases i with
    | zero =>
      simp only [List.get?] at h
      injection h with h
      subst h
      simp only [List.set, List.filter_cons]
      cases hhd : Stage.active hd <;> cases hb : Stage.active b <;>
        simp [hhd, hb] <;> try omega
    | succ n =>
      simp only [List.get?] at h
      have := ih n h
      simp only [List.set, List.filter_cons]
      cases hhd : Stage.active hd <;> simp [hhd] <;> try omega

theorem sched_inv_of_reachable (s : Sched) (h : SchedReachable s) :
    SchedInv s := by
  induction h with
  | refl => rfl
  | tail _ hstep ih =>
    cases hstep with
    | submit js p =>
      unfold SchedInv activeCount at ih ⊢
      simp only [List.filter_append]
      simpa [Stage.active] using ih
    | acquire js p i hj hp =>
      have hc := filter_length_set js i _ Stage.acquiring hj
      unfold SchedInv activeCount at ih ⊢
      simp [Stage.active] at hc
      simp only at ih ⊢
      omega
    | acquireFail js p i hj =>
      have hc := filter_length_set js i _ Stage.failed hj
      unfold SchedInv activeCount at ih ⊢
      simp [Stage.active] at hc
      simp only at ih ⊢
      omega
    | acquireOk js p i hj =>
      have hc := filter_length_set js i _ Stage.sanitizing hj
      unfold SchedInv activeCount at ih ⊢
      simp [Stage.active] at hc
      simp only at ih ⊢
      omega
    | sanitizeOk js p i hj =>
      have hc := filter_length_set js i _ Stage.done hj
      unfold SchedInv activeCount at ih ⊢
      simp [Stage.active] at hc
      simp only at ih ⊢
      omega
    | sanitizeFail js p i hj =>
      have hc := filter_length_set js i _ Stage.failed hj
      unfold SchedInv activeCount at ih ⊢
      simp [Stage.active] at hc
      simp only at ih ⊢
      omega

/-- C1: in every reachable scheduler state at most
`MAX_CONCURRENT_TASKS = 3` pipelines hold a permit — i.e. at most 3 jobs
are in `Acquiring` or `Sanitizing` at any instant — and the free permits
plus the permit-holding jobs always account for exactly the 3 permits,
which is the semaphore discipline of acquiring one permit before any
external-process work and releasing it on every outcome. -/
theorem c1_at_most_three_active (s : Sched) (h : SchedReachable s) :
    activeCount s.jobs ≤ MAX_CONCURRENT_TASKS
    ∧ s.permits + activeCount s.jobs = MAX_CONCURRENT_TASKS := by
  have hi := sched_inv_of_reachable s h
  unfold SchedInv at hi
  exact ⟨by omega, hi⟩

theorem c1_at_most_three_active_witness :
    activeCount [Stage.acquiring, Stage.acquiring, Stage.acquiring,
      Stage.queued, Stage.queued] ≤ MAX_CONCURRENT_TASKS := by
  have r0 : SchedReachable Sched.init := Relation.ReflTransGen.refl
  have r1 : SchedReachable ⟨[Stage.queued], 3⟩ :=
    r0.tail (SchedStep.submit [] 3)
  have r2 : SchedReachable ⟨[Stage.queued, Stage.queued], 3⟩ :=
    r1.tail (SchedStep.submit [Stage.queued] 3)
  have r3 : SchedReachable ⟨[Stage.queued, Stage.queued, Stage.queued], 3⟩ :=
    r2.tail (SchedStep.submit [Stage.queued, Stage.queued] 3)
  have r4 : SchedReachable
      ⟨[Stage.queued, Stage.queued, Stage.queued, Stage.queued], 3⟩ :=
    r3.tail (SchedStep.submit [Stage.queued, Stage.queued, Stage.queued] 3)
  have r5 : SchedReachable
      ⟨[Stage.queued, Stage.queued, Stage.queued, Stage.queued,
        Stage.queued], 3⟩ :=
    r4.tail (SchedStep.submit
      [Stage.queued, Stage.queued, Stage.queued, Stage.queued] 3)
  have r6 : SchedReachable
      ⟨[Stage.acquiring, Stage.queued, Stage.queued, Stage.queued,
        Stage.queued], 2⟩ :=
    r5.tail (SchedStep.acquire
      [Stage.queued, Stage.queued, Stage.queued, Stage.queued, Stage.queued]
      2 0 rfl (Nat.succ_pos 2))
  have r7 : SchedReachable
      ⟨[Stage.acquiring, Stage.acquiring, Stage.queued, Stage.queued,
        Stage.queued], 1⟩ :=
    r6.tail (SchedStep.acquire
      [Stage.acquiring, Stage.queued, Stage.queued, Stage.queued,
        Stage.queued] 1 1 rfl (Nat.succ_pos 1))
  have r8 : SchedReachable
      ⟨[Stage.acquiring, Stage.acquiring, Stage.acquiring, Stage.queued,
        Stage.queued], 0⟩ :=
    r7.tail (SchedStep.acquire
      [Stage.acquiring, Stage.acquiring, Stage.queued, Stage.queued,
        Stage.queued] 0 2 rfl (Nat.succ_pos 0))
  exact (c1_at_most_three_active _ r8).1

theorem isTerm_crToNl (c : Char) : isTerm (crToNl c) = isTerm c := by
  unfold crToNl isTerm
  by_cases h : c = '\r' <;> simp [h]

theorem sanLines_map_crToNl (stream : List Char) :
    sanLines (stream.map crToNl) = sanLines stream := by
  induction stream with
  | nil => rfl
  | cons c rest ih =>
    simp only [List.map_cons, sanLines, isTerm_crToNl]
    by_cases h : isTerm c
    · simp [h, ih]
    · have hc : crToNl c = c := by
        unfold crToNl
        rw [if_neg]
        intro h'
        subst h'
        simp [isTerm] at h
      simp only [h, if_false, hc, ih]

theorem dlRawLines_no_nl (s : List Char) (h : '\n' ∉ s) (hne : s ≠ []) :
    dlRawLines s = [s] := by
  induction s with
  | nil => cases hne rfl
  | cons c rest ih =>
    have hc : c ≠ '\n' := fun h' => h (h' ▸ List.mem_cons_self c rest)
    have hrest : '\n' ∉ rest := fun h' => h (List.mem_cons_of_mem c h')
    simp only [dlRawLines, if_neg hc]
    cases hr : rest with
    | nil => simp [dlRawLines]
    | cons x xs =>
      rw [← hr, ih hrest (by simp [hr])]

theorem dlRawLines_line (s : List Char) (h : '\n' ∉ s) :
    dlRawLines (s ++ ['\n']) = [s ++ ['\n']] := by
  induction s with
  | nil => rfl
  | cons c rest ih =>
    have hc : c ≠ '\n' := fun h' => h (h' ▸ List.mem_cons_self c rest)
    have hrest : '\n' ∉ rest := fun h' => h (List.mem_cons_of_mem c h')
    simp only [List.cons_append, dlRawLines, if_neg hc, List.append_eq]
    rw [ih hrest]

theorem pyStrip_snoc (s : List Char) (c : Char) (hc : pySpace c = true) :
    pyStrip (s ++ [c]) = pyStrip s := by
  unfold pyStrip
  rw [List.dropWhile_append]
  by_cases h : (s.dropWhile pySpace).isEmpty
  · have h0 : s.dropWhile pySpace = [] := by simpa using h
    rw [if_pos h, h0]
    simp [List.dropWhile_cons, hc]
  · rw [if_neg h, List.reverse_append]
    simp [List.dropWhile_cons, hc]

/-- C5 (amended): the sanitization-stage reassembly treats a
carriage-return exactly like a newline — replacing every CR by NL in the
raw stream changes neither the logical lines nor the resulting progress
events.  The acquisition stage reads with `readline()`, which splits on
newline only: a CR-only-terminated line is treated as complete (and equal
to its NL-terminated form, after stripping) only when it ends the stream;
mid-stream, the CR-terminated fragment is glued to the following line. -/
theorem c5_cr_line_handling :
    (∀ stream : List Char, sanLines (stream.map crToNl) = sanLines stream)
    ∧ (∀ (dur : Option ℚ) (f : Nat → ℚ) (stream : List Char),
        sanEvents dur f (stream.map crToNl) = sanEvents dur f stream)
    ∧ (∀ s : List Char, '\n' ∉ s →
        dlTextLines (s ++ ['\r']) = dlTextLines (s ++ ['\n']))
    ∧ (∀ s t : List Char, '\n' ∉ s → '\n' ∉ t →
        dlTextLines (s ++ '\r' :: t ++ ['\n'])
          = [pyStrip (s ++ '\r' :: t)]) := by
  refine ⟨sanLines_map_crToNl, ?_, ?_, ?_⟩
  · intro dur f stream
    unfold sanEvents
    rw [sanLines_map_crToNl]
  · intro s hs
    unfold dlTextLines
    rw [dlRawLines_no_nl (s ++ ['\r']) (by simp [hs]) (by simp),
      dlRawLines_line s hs]
    simp only [List.map_cons, List.map_nil]
    rw [pyStrip_snoc s '\r' rfl, pyStrip_snoc s '\n' rfl]
  · intro s t hs ht
    unfold dlTextLines
    have hnl : '\n' ∉ s ++ '\r' :: t := by
      intro hmem
      rcases List.mem_append.mp hmem with h' | h'
      · exact hs h'
      · rcases List.mem_cons.mp h' with h' | h'
        · cases h'
        · exact ht h'
    have hshape : s ++ '\r' :: t ++ ['\n'] = (s ++ '\r' :: t) ++ ['\n'] := by
      simp
    rw [hshape, dlRawLines_line _ hnl]
    simp only [List.map_cons, List.map_nil]
    rw [pyStrip_snoc _ '\n' rfl]

theorem c5_cr_line_handling_witness :
    dlTextLines ("abc".data ++ ['\r']) = dlTextLines ("abc".data ++ ['\n'])
    ∧ dlTextLines ("ab".data ++ '\r' :: "cd".data ++ ['\n'])
        = [pyStrip ("ab".data ++ '\r' :: "cd".data)] :=
  ⟨(c5_cr_line_handling).2.2.1 _ (by decide),
   (c5_cr_line_handling).2.2.2 _ _ (by decide) (by decide)⟩

/-- C5 counterexample: in the acquisition stage a CR-only-terminated
progress line is *not* treated as a complete logical line — a stream where
the first line ends in CR produces one combined waiting event, while the
same stream with NL terminators produces two. -/
theorem c5_cr_counterexample :
    downloadEvents "Sleeping 5s\rSleeping 6s\n".data
        = [⟨none, "download".data, "💤 Wait...".data⟩]
    ∧ downloadEvents "Sleeping 5s\nSleeping 6s\n".data
        = [⟨none, "download".data, "💤 Wait...".data⟩,
           ⟨none, "download".data, "💤 Wait...".data⟩]
    ∧ downloadEvents "Sleeping 5s\rSleeping 6s\n".data
        ≠ downloadEvents "Sleeping 5s\nSleeping 6s\n".data := by
  refine ⟨by decide, by decide, by decide⟩

/-- C6: the resolved stem contains none of the filesystem-unsafe
characters and no non-printable character, and a title made of printable,
safe characters — non-ASCII text included — passes through unchanged.
`printable` is universally quantified, so this holds for every
printability classification. -/
theorem c6_safe_stem_filter (printable : Char → Bool) (stem : List Char) :
    (∀ c ∈ safe_stem printable stem, c ∉ unsafeChars)
    ∧ (∀ c ∈ safe_stem printable stem, printable c = true)
    ∧ ((∀ c ∈ stem, printable c = true ∧ c ∉ unsafeChars) →
        safe_stem printable stem = stem) := by
  refine ⟨?_, ?_, ?_⟩
  · intro c hc
    have hmem : c ∈ stem.map replUnsafe := List.mem_of_mem_filter hc
    obtain ⟨a, _, rfl⟩ := List.mem_map.mp hmem
    unfold replUnsafe
    split
    · decide
    · assumption
  · intro c hc
    exact List.of_mem_filter hc
  · intro h
    unfold safe_stem
    have hmap : stem.map replUnsafe = stem := by
      rw [List.map_congr_left (fun a ha => ?_), List.map_id]
      unfold replUnsafe
      rw [if_neg (h a ha).2]
      rfl
    rw [hmap]
    exact List.filter_eq_self.mpr fun a ha => (h a ha).1

theorem c6_safe_stem_filter_witness :
    safe_stem (fun c => decide (32 ≤ c.toNat)) "日本語ビデオ".data
      = "日本語ビデオ".data
    ∧ safe_stem (fun c => decide (32 ≤ c.toNat)) "My<Video>:*?.data".data
      ≠ "My<Video>:*?.data".data :=
  ⟨(c6_safe_stem_filter _ _).2.2 (by decide), by decide⟩

/-- C9: every filename announcement emits, first, a title event whose text
is the announced name with the path stem taken, a trailing `.f<digits>`
format id stripped, and then a trailing bracketed suffix stripped; on the
destination line of the scenario this title is exactly `MyVideo`. -/
theorem c9_title_stripping :
    (∀ text g, announced text = some g →
      ∃ rest, downloadLineEvents text
        = ⟨none, "title".data, titleClean g⟩ :: rest)
    ∧ downloadLineEvents "[download] Destination: MyVideo [abc123].f303.mp4".data
      = [⟨none, "title".data, "MyVideo".data⟩] := by
  constructor
  · intro text g hg
    unfold downloadLineEvents
    rw [hg]
    exact ⟨_, rfl⟩
  · decide

theorem c9_title_stripping_witness :
    announced "[download] Destination: MyVideo [abc123].f303.mp4".data
      = some "MyVideo [abc123].f303.mp4".data
    ∧ ∃ rest,
        downloadLineEvents "[download] Destination: MyVideo [abc123].f303.mp4".data
          = ⟨none, "title".data,
              titleClean "MyVideo [abc123].f303.mp4".data⟩ :: rest :=
  ⟨by decide, (c9_title_stripping).1 _ _ (by decide)⟩

/-- C10: when a line matches several announcement patterns the
already-downloaded pattern wins over the merger pattern, which wins over
the destination pattern (they are checked in that order with overwriting);
and on a zero exit the acquisition stage returns the most recently
observed announcement of any kind. -/
theorem c10_announcement_precedence :
    (∀ text, (group1 f_exist_items text).isSome →
        detected_name text = group1 f_exist_items text)
    ∧ (∀ text, group1 f_exist_items text = none →
        (group1 f_merge_items text).isSome →
        detected_name text = group1 f_merge_items text)
    ∧ (∀ text, group1 f_exist_items text = none →
        group1 f_merge_items text = none →
        detected_name text = group1 f_pattern_items text)
    ∧ (∀ stream, downloadReturn stream 0
        = (dlTextLines stream).reverse.findSome? announced) := by
  refine ⟨?_, ?_, ?_, ?_⟩
  · intro text h
    cases he : group1 f_exist_items text
    · rw [he] at h; cases h
    · unfold detected_name
      rw [he]
  · intro text he hm
    cases hmg : group1 f_merge_items text
    · rw [hmg] at hm; cases hm
    · unfold detected_name
      rw [he, hmg]
  · intro text he hm
    unfold detected_name
    rw [he, hm]
    cases group1 f_pattern_items text <;> rfl
  · intro stream
    unfold downloadReturn downloadFinal
    rw [foldl_announced_eq]
    cases (dlTextLines stream).reverse.findSome? announced <;> simp

/-- C4: on a line carrying a `time=HH:MM:SS.frac` timestamp, with a known
non-zero total duration, exactly one progress event is emitted and its
percent is `min(current_seconds / total_seconds * 100, 99.9)`, hence
strictly below 100. -/
theorem c4_sanitize_percent (d elapsed : ℚ) (text g : List Char)
    (hd : 0 < d) (hg : group1 time_items text = some g) :
    ∃ detail pct,
      sanLineEvents (some d) elapsed text
        = [⟨some pct, "sanitize".data, detail⟩]
      ∧ pct = min ((hmsSecs (g.takeWhile (fun c => c ≠ '.')) : ℚ) / d * 100)
          (999 / 10)
      ∧ pct < 100 := by
  unfold sanLineEvents
  rw [hg]
  dsimp only
  rw [if_neg hd.ne']
  exact ⟨_, _, rfl, rfl, lt_of_le_of_lt (min_le_right _ _) (by norm_num)⟩

theorem c4_sanitize_percent_witness :
    ∃ detail,
      sanLineEvents (some 60) 10 "frame=100 time=00:00:30.00 speed=1.5x".data
        = [⟨some (50 : ℚ), "sanitize".data, detail⟩]
      ∧ (50 : ℚ) < 100 := by
  obtain ⟨detail, pct, hev, hpct, hlt⟩ :=
    c4_sanitize_percent 60 10 "frame=100 time=00:00:30.00 speed=1.5x".data
      "00:00:30.00".data (by norm_num) (by decide)
  have h30 : hmsSecs ("00:00:30.00".data.takeWhile (fun c => c ≠ '.')) = 30 := by
    decide
  rw [h30] at hpct
  have h50 : pct = (50 : ℚ) := by
    rw [hpct, min_def]
    norm_num
  rw [h50] at hev
  exact ⟨detail, hev, by norm_num⟩

/-- C8 (amended): a failed duration probe — the probe process failing or
its output not parsing — yields an unknown duration; the job does not fail
and sanitization still completes normally; but with the duration unknown
the sanitization stage emits **no** progress events at all (reporting
stops; it does not degrade to percent-less events). -/
theorem c8_duration_probe_degrades :
    get_duration none = none
    ∧ (∀ out, pyFloat? out = none → get_duration (some out) = none)
    ∧ (∀ f stream, sanEvents none f stream = [])
    ∧ (∀ raw outPath removeOk,
        (run_pipeline (some raw) (sanReturn outPath 0) removeOk).result
          = some outPath) := by
  have hline : ∀ (e : ℚ) (t : List Char), sanLineEvents none e t = [] := by
    intro e t
    unfold sanLineEvents
    cases group1 time_items t <;> rfl
  refine ⟨rfl, fun out h => ?_, fun f stream => ?_, fun raw outPath removeOk => rfl⟩
  · simp [get_duration, h]
  · unfold sanEvents
    rw [List.flatten_eq_nil_iff]
    intro x hx
    obtain ⟨p, _, rfl⟩ := List.mem_map.mp hx
    exact hline _ _

theorem c8_duration_probe_degrades_witness :
    get_duration (some "N/A".data) = none
    ∧ sanEvents none (fun _ => 0)
        "frame=100 time=00:00:30.00 speed=1.5x\n".data = [] :=
  ⟨(c8_duration_probe_degrades).2.1 _ (by decide),
   (c8_duration_probe_degrades).2.2.1 _ _⟩

theorem sanLineEvents_ne_nil (d e : ℚ) (t g : List Char) (hd : d ≠ 0)
    (hg : group1 time_items t = some g) :
    sanLineEvents (some d) e t ≠ [] := by
  unfold sanLineEvents
  rw [hg]
  dsimp only
  rw [if_neg hd]
  simp

/-- C8 counterexample: with the duration unknown the sanitization stage
emits no progress event at all on a timestamp-carrying line — not a
percent-less one, as the claim states — while the same line with a known
duration does produce an event. -/
theorem c8_no_percentless_events :
    sanEvents none (fun _ => 0)
        "frame=100 time=00:00:30.00 speed=1.5x\n".data = []
    ∧ sanEvents (some 60) (fun _ => 0)
        "frame=100 time=00:00:30.00 speed=1.5x\n".data ≠ [] := by
  constructor
  · decide
  · unfold sanEvents
    rw [show sanLines "frame=100 time=00:00:30.00 speed=1.5x\n".data
        = ["frame=100 time=00:00:30.00 speed=1.5x".data] from by decide]
    simp only [List.enum, List.enumFrom, List.map_cons, List.map_nil,
      List.flatten, List.append_nil]
    intro h
    exact sanLineEvents_ne_nil 60 0
      (pyStrip "frame=100 time=00:00:30.00 speed=1.5x".data) "00:00:30.00".data
      (by norm_num) (by decide) (by simpa using h)

theorem digitCh_toNat (d : Nat) (h : d < 10) : (digitCh d).toNat = 48 + d := by
  interval_cases d <;> rfl

theorem parseNat_snoc (xs : List Char) (c : Char) :
    parseNat (xs ++ [c]) = parseNat xs * 10 + (c.toNat - 48) := by
  unfold parseNat
  rw [List.foldl_append]
  rfl

theorem parseNat_decReprAux :
    ∀ (fuel n : Nat), n < fuel → parseNat (decReprAux fuel n) = n := by
  intro fuel
  induction fuel with
  | zero => omega
  | succ fuel ih =>
    intro n h
    simp only [decReprAux]
    split
    · next h10 =>
      unfold parseNat
      simp only [List.foldl_cons, List.foldl_nil]
      rw [digitCh_toNat n h10]
      omega
    · next h10 =>
      have hdiv : n / 10 < n := Nat.div_lt_self (by omega) (by omega)
      rw [parseNat_snoc, ih (n / 10) (by omega),
        digitCh_toNat (n % 10) (Nat.mod_lt _ (by omega))]
      omega

theorem parseNat_decRepr (n : Nat) : parseNat (decRepr n) = n :=
  parseNat_decReprAux (n + 1) n (Nat.lt_succ_self n)

theorem decRepr_inj (m n : Nat) (h : decRepr m = decRepr n) : m = n := by
  have hm := parseNat_decRepr m
  rw [h, parseNat_decRepr] at hm
  omega

theorem candidate_inj (stem : List Char) (j k : Nat)
    (h : candidate stem j = candidate stem k) : j = k := by
  unfold candidate at h
  by_cases hj : j = 0 <;> by_cases hk : k = 0
  · omega
  · exfalso
    rw [if_pos hj, if_neg hk] at h
    simp only [List.append_assoc] at h
    have h' := List.append_cancel_left h
    have h6 := congrArg (fun l => l.get? 6) h'
    simp only at h6
    rw [List.get?_append (by decide)] at h6
    simp at h6
  · exfalso
    rw [if_neg hj, if_pos hk] at h
    simp only [List.append_assoc] at h
    have h' := List.append_cancel_left h
    have h6 := congrArg (fun l => l.get? 6) h'
    simp only at h6
    rw [List.get?_append (by decide)] at h6
    simp at h6
  · rw [if_neg hj, if_neg hk] at h
    simp only [List.append_assoc] at h
    have h1 := List.append_cancel_left h
    have h2 := List.append_cancel_left h1
    have h3 := List.append_cancel_right h2
    exact decRepr_inj j k h3

theorem exists_free_candidate (fs : List (List Char)) (stem : List Char) :
    ∃ d, d ≤ fs.length ∧ candidate stem d ∉ fs := by
  by_contra hcon
  push_neg at hcon
  have hnodup : ((List.range (fs.length + 1)).map (candidate stem)).Nodup :=
    List.Nodup.map (fun a b hab => candidate_inj stem a b hab)
      (List.nodup_range _)
  have hsub : ((List.range (fs.length + 1)).map (candidate stem)) ⊆ fs := by
    intro x hx
    obtain ⟨d, hd, rfl⟩ := List.mem_map.mp hx
    have hdlt := List.mem_range.mp hd
    exact hcon d (by omega)
  have hlen := (hnodup.subperm hsub).length_le
  simp at hlen

theorem resolveLoop_spec (fs : List (List Char)) (stem : List Char) :
    ∀ (fuel k : Nat), (∃ d, d ≤ fuel ∧ candidate stem (k + d) ∉ fs) →
      ∃ d, d ≤ fuel
        ∧ resolveLoop fs stem fuel k = candidate stem (k + d)
        ∧ candidate stem (k + d) ∉ fs
        ∧ ∀ j, k ≤ j → j < k + d → candidate stem j ∈ fs := by
  intro fuel
  induction fuel with
  | zero =>
    rintro k ⟨d, hd, hfree⟩
    have hd0 : d = 0 := by omega
    subst hd0
    exact ⟨0, Nat.le_refl 0, rfl, hfree, fun j h1 h2 => absurd h2 (by omega)⟩
  | succ fuel ih =>
    rintro k ⟨d, hd, hfree⟩
    by_cases hmem : candidate stem k ∈ fs
    · have hd0 : d ≠ 0 := by
        intro h0
        subst h0
        simp only [Nat.add_zero] at hfree
        exact hfree hmem
      obtain ⟨d', rfl⟩ : ∃ d', d = d' + 1 := ⟨d - 1, by omega⟩
      have hfree' : candidate stem (k + 1 + d') ∉ fs := by
        have he : k + 1 + d' = k + (d' + 1) := by omega
        rw [he]
        exact hfree
      obtain ⟨e, he, heq, hef, hall⟩ := ih (k + 1) ⟨d', by omega, hfree'⟩
      refine ⟨e + 1, by omega, ?_, ?_, ?_⟩
      · simp only [resolveLoop, if_pos hmem]
        rw [heq]
        congr 1
        omega
      · have he2 : k + (e + 1) = k + 1 + e := by omega
        rw [he2]
        exact hef
      · intro j h1 h2
        by_cases hj : j = k
        · subst hj
          exact hmem
        · exact hall j (by omega) (by omega)
    · refine ⟨0, by omega, ?_, by simpa using hmem,
        fun j h1 h2 => absurd h2 (by omega)⟩
      simp only [resolveLoop, if_neg hmem, Nat.add_zero]

/-- C7: the resolved output name never exists in the directory at selection
time; it is the candidate with the least suffix counter whose path is free
(the plain `_clean.mp4` name first, then `_clean_1`, `_clean_2`, …); and
two successive resolutions with the same stem, the first result being
created in between, never return the same path. -/
theorem c7_collision_free_name (fs : List (List Char)) (stem : List Char) :
    resolveName fs stem ∉ fs
    ∧ (∃ k, resolveName fs stem = candidate stem k
        ∧ candidate stem k ∉ fs
        ∧ ∀ j, j < k → candidate stem j ∈ fs)
    ∧ resolveName (resolveName fs stem :: fs) stem ≠ resolveName fs stem := by
  have main : ∀ fs' : List (List Char),
      resolveName fs' stem ∉ fs'
      ∧ ∃ k, resolveName fs' stem = candidate stem k
          ∧ candidate stem k ∉ fs'
          ∧ ∀ j, j < k → candidate stem j ∈ fs' := by
    intro fs'
    obtain ⟨d, hd, hfree⟩ := exists_free_candidate fs' stem
    obtain ⟨e, he, heq, hef, hall⟩ :=
      resolveLoop_spec fs' stem (fs'.length + 1) 0 ⟨d, by omega, by simpa using hfree⟩
    refine ⟨?_, e, ?_, by simpa using hef, fun j hj => ?_⟩
    · unfold resolveName
      rw [heq]
      simpa using hef
    · unfold resolveName
      rw [heq]
      simp
    · exact hall j (by omega) (by omega)
  refine ⟨(main fs).1, (main fs).2, fun heq => ?_⟩
  have := (main (resolveName fs stem :: fs)).1
  rw [heq] at this
  exact this (List.mem_cons_self _ _)

theorem c7_collision_free_name_witness :
    resolveName ["A_clean.mp4".data, "A_clean_1.mp4".data] "A".data
        ∉ ["A_clean.mp4".data, "A_clean_1.mp4".data]
    ∧ resolveName ["A_clean.mp4".data, "A_clean_1.mp4".data] "A".data
        = "A_clean_2.mp4".data :=
  ⟨(c7_collision_free_name _ _).1, by decide⟩

theorem c10_announcement_precedence_witness :
    detected_name "[download] Destination: X has already been downloaded".data
      = group1 f_exist_items
          "[download] Destination: X has already been downloaded".data
    ∧ group1 f_exist_items
          "[download] Destination: X has already been downloaded".data
        = some "Destination: X".data :=
  ⟨(c10_announcement_precedence).1 _ (by decide), by decide⟩

end Station

